import Mathlib

/-!
Verification of the offline-first synchronization engine
(`src/src/sync/offline_manager.py`) against its specification.

The Python module is shallowly embedded below:

* `SlideSyncJob`, `SyncStatus` mirror the pydantic model and enum;
  ISO-8601 timestamps are modelled as `Nat` (lexicographic order on the
  ISO strings coincides with chronological order).
* `queue_slide`, `adaptive_chunk_size` mirror `OfflineSyncManager.queue_slide`
  and `_adaptive_chunk_size` (bandwidth, a Python float, is modelled as `ℚ`).
* `upload_slide` mirrors `OfflineSyncManager._upload_slide`.  Its external
  effects (HTTP calls in `_initiate_multipart_upload`, `_upload_chunk`,
  `_complete_multipart_upload`) are abstracted by an environment `Env`
  giving each call's outcome; `_upload_chunk` distinguishes network
  failures (which set `is_online := False`) from other errors, both
  returning `False`, so its outcome is a three-valued `ChunkResult`.
  Every `_save_job` call and every remote call is recorded in an event
  trace, so ordering properties (persist-before-next-chunk, which chunk
  indices were sent, whether initiate was called) can be stated.
  Local file reads (`open`/`seek`/`read`) are modelled as infallible: the
  source file is local and the module treats its bytes as opaque.
* `get_next_job` mirrors the SQL query of `_get_next_job`
  (`WHERE status IN ('queued','paused') ORDER BY priority ASC, created_at
  ASC LIMIT 1`); ties beyond `created_at` resolve to the earliest row, as
  SQLite returns rows in rowid (insertion) order.
* `save_job` mirrors `_save_job` (`INSERT OR REPLACE` keyed on `job_id`),
  `sync_worker_pass` mirrors one iteration of `sync_worker`.
-/

namespace OfflineSync

/-- `CHUNK_SIZE_MIN` from the module configuration (5 MB). -/
def CHUNK_SIZE_MIN : Nat := 5 * 1024 * 1024

/-- `CHUNK_SIZE_MAX` from the module configuration (100 MB). -/
def CHUNK_SIZE_MAX : Nat := 100 * 1024 * 1024

/-- `RETRY_INTERVALS` from the module configuration. -/
def RETRY_INTERVALS : List Nat := [5, 10, 30, 60, 300, 600]

/-- The `SyncStatus` enum. -/
inductive SyncStatus where
  | queued
  | uploading
  | paused
  | completed
  | failed
deriving DecidableEq

/-- The `SlideSyncJob` pydantic model.  `created_at`/`updated_at` are `Nat`
timestamps; `metadata` is an opaque key/value list. -/
structure SlideSyncJob where
  job_id : String
  slide_id : String
  file_path : String
  file_size : Nat
  chunk_size : Nat
  chunks_total : Nat
  chunks_uploaded : List Nat
  status : SyncStatus
  priority : Int
  created_at : Nat
  updated_at : Nat
  retry_count : Nat
  error_message : Option String
  s3_upload_id : Option String
  metadata : List (String × String)
deriving DecidableEq

/-- Python truthiness of the `Optional[str]` field `s3_upload_id`:
`not job.s3_upload_id` is `True` for `None` and for the empty string. -/
def pythonFalsy : Option String → Bool
  | none => true
  | some s => s.isEmpty

/-- `OfflineSyncManager._adaptive_chunk_size`, as a function of the
current bandwidth estimate (`self.current_bandwidth_mbps`). -/
def adaptive_chunk_size (bw : ℚ) : Nat :=
  if bw < 2 then CHUNK_SIZE_MIN
  else if bw < 10 then 25 * 1024 * 1024
  else CHUNK_SIZE_MAX

/-- `OfflineSyncManager.queue_slide` for an existing file: builds and
persists the initial `QUEUED` job.  `file_size` is `os.path.getsize`,
`bw` the current bandwidth estimate, `now` the enqueue timestamp,
`job_id`/`slide_id` the generated identifiers. -/
def queue_slide (bw : ℚ) (file_path : String) (file_size : Nat)
    (priority : Int) (now : Nat) (job_id slide_id : String)
    (metadata : List (String × String)) : SlideSyncJob :=
  let chunk_size := adaptive_chunk_size bw
  let chunks_total := (file_size + chunk_size - 1) / chunk_size
  { job_id := job_id
    slide_id := slide_id
    file_path := file_path
    file_size := file_size
    chunk_size := chunk_size
    chunks_total := chunks_total
    chunks_uploaded := []
    status := SyncStatus.queued
    priority := priority
    created_at := now
    updated_at := now
    retry_count := 0
    error_message := none
    s3_upload_id := none
    metadata := metadata }

/-- Outcome of one `_upload_chunk` call: `ok` (returns `True`),
`netFail` (`httpx.TimeoutException`/`httpx.NetworkError`: sets
`is_online := False` and returns `False`), `otherFail` (any other
exception: returns `False`, `is_online` untouched). -/
inductive ChunkResult where
  | ok
  | netFail
  | otherFail
deriving DecidableEq

/-- Outcomes of the remote calls made while processing one job.
`initiate_result`/`complete_result` are `Except.error e` when the
corresponding HTTP call raises (including network timeouts/resets, which
`raise` through `_upload_slide`'s generic handler). -/
structure Env where
  initiate_result : Except String String
  chunk_result : Nat → ChunkResult
  complete_result : Except String Unit

/-- Observable events of `_upload_slide`: each `_save_job` call (with the
exact record written), and each remote call. -/
inductive Event where
  | save (job : SlideSyncJob)
  | initiateCall
  | uploadChunkCall (idx : Nat)
  | completeCall
deriving DecidableEq

/-- Result of the chunk loop of `_upload_slide`: the job object after the
loop, the manager's `is_online` flag, the emitted events, and whether the
loop ran to completion (`ok = false` means it returned early `PAUSED`). -/
structure LoopResult where
  job : SlideSyncJob
  online : Bool
  events : List Event
  ok : Bool

/-- Result of `_upload_slide`: the final job record, the manager's
`is_online` flag, and the event trace. -/
structure UploadResult where
  job : SlideSyncJob
  online : Bool
  events : List Event

/-- The `for chunk_idx in range(job.chunks_total)` loop of
`_upload_slide`: skip indices already in `chunks_uploaded`; on success
append the index and persist; on failure persist `PAUSED` with
`retry_count + 1` and return. -/
def uploadChunksLoop (env : Env) (now : Nat) :
    List Nat → SlideSyncJob → Bool → LoopResult
  | [], job, online => ⟨job, online, [], true⟩
  | idx :: rest, job, online =>
    if idx ∈ job.chunks_uploaded then
      uploadChunksLoop env now rest job online
    else
      match env.chunk_result idx with
      | ChunkResult.ok =>
        let job' := { job with chunks_uploaded := job.chunks_uploaded ++ [idx],
                               updated_at := now }
        let r := uploadChunksLoop env now rest job' online
        ⟨r.job, r.online,
          Event.uploadChunkCall idx :: Event.save job' :: r.events, r.ok⟩
      | ChunkResult.netFail =>
        let job' := { job with status := SyncStatus.paused,
                               retry_count := job.retry_count + 1 }
        ⟨job', false, [Event.uploadChunkCall idx, Event.save job'], false⟩
      | ChunkResult.otherFail =>
        let job' := { job with status := SyncStatus.paused,
                               retry_count := job.retry_count + 1 }
        ⟨job', online, [Event.uploadChunkCall idx, Event.save job'], false⟩

/-- The part of `_upload_slide` after the initiate phase: chunk loop,
then `_complete_multipart_upload` and the `COMPLETED` save; an exception
in `complete` falls into the generic handler (`FAILED`, `retry_count + 1`). -/
def afterInitiate (env : Env) (now : Nat) (online : Bool)
    (job : SlideSyncJob) : UploadResult :=
  let r := uploadChunksLoop env now (List.range job.chunks_total) job online
  if r.ok then
    match env.complete_result with
    | Except.error e =>
      let jf := { r.job with status := SyncStatus.failed,
                             error_message := some e,
                             retry_count := r.job.retry_count + 1 }
      ⟨jf, r.online, r.events ++ [Event.completeCall, Event.save jf]⟩
    | Except.ok _ =>
      let jc := { r.job with status := SyncStatus.completed, updated_at := now }
      ⟨jc, r.online, r.events ++ [Event.completeCall, Event.save jc]⟩
  else ⟨r.job, r.online, r.events⟩

/-- `OfflineSyncManager._upload_slide`: set `UPLOADING` and save; initiate
if `not job.s3_upload_id` (an exception there falls into the generic
handler: `FAILED`, `error_message`, `retry_count + 1`); then the chunk
loop and completion. -/
def upload_slide (env : Env) (now : Nat) (online : Bool)
    (job : SlideSyncJob) : UploadResult :=
  let job1 := { job with status := SyncStatus.uploading, updated_at := now }
  if pythonFalsy job1.s3_upload_id then
    match env.initiate_result with
    | Except.error e =>
      let jf := { job1 with status := SyncStatus.failed,
                            error_message := some e,
                            retry_count := job1.retry_count + 1 }
      ⟨jf, online, [Event.save job1, Event.initiateCall, Event.save jf]⟩
    | Except.ok uid =>
      let job2 := { job1 with s3_upload_id := some uid }
      let r := afterInitiate env now online job2
      ⟨r.job, r.online,
        Event.save job1 :: Event.initiateCall :: Event.save job2 :: r.events⟩
  else
    let r := afterInitiate env now online job1
    ⟨r.job, r.online, Event.save job1 :: r.events⟩

/-- Chunk indices sent over the wire, in order, as read off a trace. -/
def uploadedIndices : List Event → List Nat
  | [] => []
  | Event.uploadChunkCall i :: rest => i :: uploadedIndices rest
  | _ :: rest => uploadedIndices rest

/-- Proof-internal restatement of the chunk loop on the list of genuinely
missing indices: identical to `uploadChunksLoop` except that the
membership re-check against `chunks_uploaded` is dropped
(`loop_eq_go` below shows the two agree on duplicate-free index lists). -/
def go (env : Env) (now : Nat) : List Nat → SlideSyncJob → Bool → LoopResult
  | [], job, online => ⟨job, online, [], true⟩
  | idx :: rest, job, online =>
    match env.chunk_result idx with
    | ChunkResult.ok =>
      let job' := { job with chunks_uploaded := job.chunks_uploaded ++ [idx],
                             updated_at := now }
      let r := go env now rest job' online
      ⟨r.job, r.online,
        Event.uploadChunkCall idx :: Event.save job' :: r.events, r.ok⟩
    | ChunkResult.netFail =>
      let job' := { job with status := SyncStatus.paused,
                             retry_count := job.retry_count + 1 }
      ⟨job', false, [Event.uploadChunkCall idx, Event.save job'], false⟩
    | ChunkResult.otherFail =>
      let job' := { job with status := SyncStatus.paused,
                             retry_count := job.retry_count + 1 }
      ⟨job', online, [Event.uploadChunkCall idx, Event.save job'], false⟩

/-- Trace well-formedness checker: every `uploadChunkCall i` is
immediately followed by a `_save_job` call, and when the chunk was
acknowledged (`ChunkResult.ok`) the record saved there already lists `i`
in `chunks_uploaded`. -/
def persistedOk (env : Env) : List Event → Bool
  | [] => true
  | Event.uploadChunkCall i :: rest =>
    match rest with
    | Event.save jb :: _ =>
      ((!decide (env.chunk_result i = ChunkResult.ok)) ||
        decide (i ∈ jb.chunks_uploaded)) && persistedOk env rest
    | _ => false
  | _ :: rest => persistedOk env rest

/-- The chunk indices a job still has to upload: the indices of
`range(chunks_total)` skipped by no `if chunk_idx in job.chunks_uploaded`
check, in increasing order. -/
def missingChunks (job : SlideSyncJob) : List Nat :=
  (List.range job.chunks_total).filter
    (fun i => decide (i ∉ job.chunks_uploaded))

/-- The eligibility filter of `_get_next_job`'s SQL query:
`status IN ('queued', 'paused')`. -/
def eligible (j : SlideSyncJob) : Bool :=
  decide (j.status = SyncStatus.queued) || decide (j.status = SyncStatus.paused)

/-- The `ORDER BY priority ASC, created_at ASC` comparison: strict
lexicographic order on `(priority, created_at)`. -/
def jobLt (a b : SlideSyncJob) : Prop :=
  a.priority < b.priority ∨
    (a.priority = b.priority ∧ a.created_at < b.created_at)

instance jobLt.dec (a b : SlideSyncJob) : Decidable (jobLt a b) := by
  unfold jobLt; infer_instance

/-- Accumulator step selecting the minimum row under `jobLt`; on ties the
earlier row (lower rowid, i.e. earlier insertion) is kept, as SQLite
returns it first. -/
def minAcc (acc : Option SlideSyncJob) (j : SlideSyncJob) :
    Option SlideSyncJob :=
  match acc with
  | none => some j
  | some b => if jobLt j b then some j else some b

/-- `OfflineSyncManager._get_next_job`: the first row of the table (in
rowid order) minimal under `ORDER BY priority ASC, created_at ASC` among
rows with `status IN ('queued','paused')`, or `none`. -/
def get_next_job (store : List SlideSyncJob) : Option SlideSyncJob :=
  (store.filter eligible).foldl minAcc none

/-- `OfflineSyncManager._save_job`: `INSERT OR REPLACE` keyed on
`job_id`. -/
def save_job (store : List SlideSyncJob) (j : SlideSyncJob) :
    List SlideSyncJob :=
  if store.any (fun k => k.job_id == j.job_id) then
    store.map (fun k => if k.job_id == j.job_id then j else k)
  else store ++ [j]

/-- Replay the `_save_job` calls of a trace against the store. -/
def apply_events (store : List SlideSyncJob) : List Event → List SlideSyncJob
  | [] => store
  | Event.save j :: rest => apply_events (save_job store j) rest
  | _ :: rest => apply_events store rest

/-- One iteration of `sync_worker`'s loop body (the bandwidth probe
aside): select `_get_next_job()`; if a job was found and the manager is
online, run `_upload_slide` on it (whose `_save_job` calls mutate the
store); otherwise sleep. -/
def sync_worker_pass (env : Env) (now : Nat) (online : Bool)
    (store : List SlideSyncJob) : List SlideSyncJob × Bool :=
  match get_next_job store with
  | none => (store, online)
  | some job =>
    if online then
      let r := upload_slide env now online job
      (apply_events store r.events, r.online)
    else (store, online)

/-! ### Concrete fixtures for scenarios, witnesses and counterexamples -/

/-- Fixture builder: a job record for a file of `ctotal` chunks of
`CHUNK_SIZE_MIN` bytes, with the given scheduling-relevant fields. -/
def mkJob (jid : String) (prio : Int) (created : Nat) (ctotal : Nat)
    (cdone : List Nat) (st : SyncStatus) (rc : Nat)
    (uid : Option String) : SlideSyncJob :=
  { job_id := jid, slide_id := jid, file_path := jid,
    file_size := ctotal * CHUNK_SIZE_MIN, chunk_size := CHUNK_SIZE_MIN,
    chunks_total := ctotal, chunks_uploaded := cdone, status := st,
    priority := prio, created_at := created, updated_at := created,
    retry_count := rc, error_message := none, s3_upload_id := uid,
    metadata := [] }

/-- Environment in which every remote call succeeds. -/
def envAllOk : Env :=
  ⟨Except.ok "u-1", fun _ => ChunkResult.ok, Except.ok ()⟩

/-- Environment in which the initiate call raises a connection error. -/
def envInitDown : Env :=
  ⟨Except.error "httpx.ConnectError", fun _ => ChunkResult.ok,
    Except.ok ()⟩

/-- Environment in which the initiate call raises a network timeout. -/
def envInitTimeout : Env :=
  ⟨Except.error "httpx.ConnectTimeout", fun _ => ChunkResult.ok,
    Except.ok ()⟩

/-- Environment in which every chunk upload hits a network error. -/
def envNetDrop : Env :=
  ⟨Except.ok "u-2", fun _ => ChunkResult.netFail, Except.ok ()⟩

/-- Priority-scenario jobs: priorities 5, 1, 3 enqueued in that order. -/
def jobP5 : SlideSyncJob := mkJob "job-a" 5 0 1 [] SyncStatus.queued 0 none

def jobP1 : SlideSyncJob := mkJob "job-b" 1 1 1 [] SyncStatus.queued 0 none

def jobP3 : SlideSyncJob := mkJob "job-c" 3 2 1 [] SyncStatus.queued 0 none

def jobP1done : SlideSyncJob := { jobP1 with status := SyncStatus.completed }

def jobP3done : SlideSyncJob := { jobP3 with status := SyncStatus.completed }

/-- Resume fixture: 3 chunks, non-contiguous done set `{0, 2}`. -/
def jobW1 : SlideSyncJob := mkJob "w1" 5 0 3 [0, 2] SyncStatus.queued 0 none

/-- A freshly enqueued 12 MB job at a 1 Mbps estimate. -/
def jobC2 : SlideSyncJob :=
  queue_slide 1 "slide-c2.svs" 12582912 5 0 "job-c2" "sl-c2" []

def jobC3 : SlideSyncJob := mkJob "job-c3" 5 0 2 [] SyncStatus.queued 0 none

def jobC3b : SlideSyncJob :=
  mkJob "job-c3b" 5 0 2 [] SyncStatus.queued 0 none

def jobW5 : SlideSyncJob := mkJob "w5" 5 0 2 [] SyncStatus.queued 0 none

/-- The successive records `_upload_slide` saves while processing
`jobW5` under `envAllOk` at time 1. -/
def jW5a : SlideSyncJob :=
  { jobW5 with status := SyncStatus.uploading, updated_at := 1 }

def jW5b : SlideSyncJob := { jW5a with s3_upload_id := some "u-1" }

def jW5c : SlideSyncJob := { jW5b with chunks_uploaded := [0] }

def jW5d : SlideSyncJob := { jW5c with chunks_uploaded := [0, 1] }

def jW5e : SlideSyncJob := { jW5d with status := SyncStatus.completed }

def jobW6 : SlideSyncJob :=
  mkJob "w6" 5 0 1 [] SyncStatus.queued 0 (some "uid-w6")

/-- A `PAUSED` job with a large `retry_count`, as left behind by five
transient failures. -/
def jobStuckPaused : SlideSyncJob :=
  mkJob "job-stuck" 5 0 3 [0] SyncStatus.paused 5 (some "u-stuck")

/-- A `COMPLETED` job and a fresh `QUEUED` job sharing one store. -/
def jobTdone : SlideSyncJob :=
  mkJob "t-done" 1 0 1 [0] SyncStatus.completed 0 (some "u-t")

def jobQ1 : SlideSyncJob := mkJob "q-1" 5 1 1 [] SyncStatus.queued 0 none

/-! ### Helper lemmas about the chunk loop -/

theorem uploadedIndices_cons_save (j : SlideSyncJob) (l : List Event) :
    uploadedIndices (Event.save j :: l) = uploadedIndices l := rfl

theorem uploadedIndices_append :
    ∀ a b : List Event,
      uploadedIndices (a ++ b) = uploadedIndices a ++ uploadedIndices b
  | [], _ => rfl
  | Event.save _ :: rest, b => by
    simpa [uploadedIndices] using uploadedIndices_append rest b
  | Event.initiateCall :: rest, b => by
    simpa [uploadedIndices] using uploadedIndices_append rest b
  | Event.uploadChunkCall i :: rest, b => by
    simpa [uploadedIndices] using uploadedIndices_append rest b
  | Event.completeCall :: rest, b => by
    simpa [uploadedIndices] using uploadedIndices_append rest b

/-- On a duplicate-free index list the loop coincides with `go` applied
to the indices genuinely missing from the job's `chunks_uploaded`. -/
theorem loop_eq_go (env : Env) (now : Nat) :
    ∀ (l : List Nat) (job : SlideSyncJob) (online : Bool), l.Nodup →
      uploadChunksLoop env now l job online
        = go env now (l.filter (fun i => decide (i ∉ job.chunks_uploaded)))
            job online := by
  intro l
  induction l with
  | nil => intro job online _; rfl
  | cons idx rest ih =>
    intro job online h
    have hni : idx ∉ rest := (List.nodup_cons.mp h).1
    have hnd : rest.Nodup := (List.nodup_cons.mp h).2
    by_cases hmem : idx ∈ job.chunks_uploaded
    · rw [show uploadChunksLoop env now (idx :: rest) job online
          = uploadChunksLoop env now rest job online by
            simp [uploadChunksLoop, hmem]]
      rw [ih job online hnd]
      congr 1
      simp [List.filter_cons, hmem]
    · have hfil : List.filter (fun i => decide (i ∉ job.chunks_uploaded))
          (idx :: rest)
          = idx :: List.filter (fun i => decide (i ∉ job.chunks_uploaded))
              rest := by
        simp [List.filter_cons, hmem]
      rw [hfil]
      cases hres : env.chunk_result idx with
      | ok =>
        have hcongr :
            List.filter (fun i => !decide (i ∈ job.chunks_uploaded)
                && !decide (i = idx)) rest
            = List.filter (fun i => !decide (i ∈ job.chunks_uploaded)) rest := by
          apply List.filter_congr
          intro x hx
          have hxne : x ≠ idx := fun hxe => hni (hxe ▸ hx)
          simp [hxne]
        simp only [uploadChunksLoop, go, hmem, hres, if_false, ite_false]
        simp only [ih _ online hnd]
        simp [hcongr]
      | netFail => simp [uploadChunksLoop, go, hmem, hres]
      | otherFail => simp [uploadChunksLoop, go, hmem, hres]

/-- When every chunk in `m` is acknowledged, `go` uploads all of `m`
in order, appends `m` to `chunks_uploaded`, and touches nothing else. -/
theorem go_ok (env : Env) (now : Nat) :
    ∀ (m : List Nat) (job : SlideSyncJob) (online : Bool),
      (∀ i ∈ m, env.chunk_result i = ChunkResult.ok) →
      (go env now m job online).ok = true ∧
      (go env now m job online).online = online ∧
      (go env now m job online).job.chunks_uploaded
        = job.chunks_uploaded ++ m ∧
      (go env now m job online).job.status = job.status ∧
      (go env now m job online).job.s3_upload_id = job.s3_upload_id ∧
      (go env now m job online).job.job_id = job.job_id ∧
      (go env now m job online).job.retry_count = job.retry_count ∧
      uploadedIndices (go env now m job online).events = m := by
  intro m
  induction m with
  | nil => intro job online _; simp [go, uploadedIndices]
  | cons idx rest ih =>
    intro job online hok
    have hres : env.chunk_result idx = ChunkResult.ok :=
      hok idx (List.mem_cons_self _ _)
    have hrest : ∀ i ∈ rest, env.chunk_result i = ChunkResult.ok :=
      fun i hi => hok i (List.mem_cons_of_mem _ hi)
    have := ih ({ job with chunks_uploaded := job.chunks_uploaded ++ [idx],
                           updated_at := now }) online hrest
    simp only [go, hres]
    refine ⟨this.1, this.2.1, ?_, this.2.2.2.1, this.2.2.2.2.1,
      this.2.2.2.2.2.1, this.2.2.2.2.2.2.1, ?_⟩
    · rw [this.2.2.1]; simp
    · simp [uploadedIndices, this.2.2.2.2.2.2.2]

/-- If the first non-acknowledged chunk in `m` fails with a network
error, `go` pauses the job, bumps `retry_count` once, and drops the
online flag. -/
theorem go_netFail (env : Env) (now : Nat) :
    ∀ (m1 : List Nat) (i : Nat) (m2 : List Nat) (job : SlideSyncJob)
      (online : Bool),
      (∀ x ∈ m1, env.chunk_result x = ChunkResult.ok) →
      env.chunk_result i = ChunkResult.netFail →
      (go env now (m1 ++ i :: m2) job online).job.status
          = SyncStatus.paused ∧
      (go env now (m1 ++ i :: m2) job online).online = false ∧
      (go env now (m1 ++ i :: m2) job online).job.retry_count
          = job.retry_count + 1 ∧
      (go env now (m1 ++ i :: m2) job online).ok = false := by
  intro m1
  induction m1 with
  | nil =>
    intro i m2 job online _ hnet
    simp [go, hnet]
  | cons x m1' ih =>
    intro i m2 job online hok hnet
    have hx : env.chunk_result x = ChunkResult.ok :=
      hok x (List.mem_cons_self _ _)
    have hrest : ∀ y ∈ m1', env.chunk_result y = ChunkResult.ok :=
      fun y hy => hok y (List.mem_cons_of_mem _ hy)
    have := ih i m2 ({ job with
        chunks_uploaded := job.chunks_uploaded ++ [x],
        updated_at := now }) online hrest hnet
    simpa [go, hx] using this

/-- The chunk loop never issues an initiate call and never changes the
job's identity or transfer handle. -/
theorem loop_inv (env : Env) (now : Nat) :
    ∀ (l : List Nat) (job : SlideSyncJob) (online : Bool),
      (uploadChunksLoop env now l job online).job.job_id = job.job_id ∧
      (uploadChunksLoop env now l job online).job.s3_upload_id
          = job.s3_upload_id ∧
      Event.initiateCall ∉ (uploadChunksLoop env now l job online).events := by
  intro l
  induction l with
  | nil => intro job online; simp [uploadChunksLoop]
  | cons idx rest ih =>
    intro job online
    by_cases hmem : idx ∈ job.chunks_uploaded
    · simpa [uploadChunksLoop, hmem] using ih job online
    · cases hres : env.chunk_result idx with
      | ok =>
        have := ih ({ job with
            chunks_uploaded := job.chunks_uploaded ++ [idx],
            updated_at := now }) online
        simpa [uploadChunksLoop, hmem, hres] using this
      | netFail => simp [uploadChunksLoop, hmem, hres]
      | otherFail => simp [uploadChunksLoop, hmem, hres]

/-- Every record saved by the chunk loop carries the job's `job_id`. -/
theorem loop_saves_jobid (env : Env) (now : Nat) :
    ∀ (l : List Nat) (job : SlideSyncJob) (online : Bool)
      (jb : SlideSyncJob),
      Event.save jb ∈ (uploadChunksLoop env now l job online).events →
      jb.job_id = job.job_id := by
  intro l
  induction l with
  | nil => intro job online jb h; simp [uploadChunksLoop] at h
  | cons idx rest ih =>
    intro job online jb h
    by_cases hmem : idx ∈ job.chunks_uploaded
    · rw [show uploadChunksLoop env now (idx :: rest) job online
          = uploadChunksLoop env now rest job online by
            simp [uploadChunksLoop, hmem]] at h
      exact ih job online jb h
    · cases hres : env.chunk_result idx with
      | ok =>
        simp only [uploadChunksLoop, hmem, hres, if_false, ite_false,
          List.mem_cons] at h
        rcases h with h | h | h
        · exact absurd h (by simp)
        · cases h; rfl
        · exact ih ({ job with
            chunks_uploaded := job.chunks_uploaded ++ [idx],
            updated_at := now }) online jb h
      | netFail =>
        simp only [uploadChunksLoop, hmem, hres, if_false, ite_false,
          List.mem_cons, List.mem_singleton] at h
        rcases h with h | h | h
        · exact absurd h (by simp)
        · cases h; rfl
        · simp at h
      | otherFail =>
        simp only [uploadChunksLoop, hmem, hres, if_false, ite_false,
          List.mem_cons, List.mem_singleton] at h
        rcases h with h | h | h
        · exact absurd h (by simp)
        · cases h; rfl
        · simp at h

/-- Both saved records and the final job of the chunk loop only list
chunk indices that were already done at entry or acknowledged by the
remote endpoint. -/
theorem loop_saves_acked (env : Env) (now : Nat) :
    ∀ (l : List Nat) (job : SlideSyncJob) (online : Bool)
      (orig : List Nat),
      (∀ k ∈ job.chunks_uploaded,
        k ∈ orig ∨ env.chunk_result k = ChunkResult.ok) →
      (∀ jb, Event.save jb ∈ (uploadChunksLoop env now l job online).events →
        ∀ k ∈ jb.chunks_uploaded,
          k ∈ orig ∨ env.chunk_result k = ChunkResult.ok) ∧
      (∀ k ∈ (uploadChunksLoop env now l job online).job.chunks_uploaded,
        k ∈ orig ∨ env.chunk_result k = ChunkResult.ok) := by
  intro l
  induction l with
  | nil =>
    intro job online orig hjob
    refine ⟨?_, by simpa [uploadChunksLoop] using hjob⟩
    intro jb h
    simp [uploadChunksLoop] at h
  | cons idx rest ih =>
    intro job online orig hjob
    by_cases hmem : idx ∈ job.chunks_uploaded
    · rw [show uploadChunksLoop env now (idx :: rest) job online
          = uploadChunksLoop env now rest job online by
            simp [uploadChunksLoop, hmem]]
      exact ih job online orig hjob
    · cases hres : env.chunk_result idx with
      | ok =>
        have hjob' : ∀ k ∈ job.chunks_uploaded ++ [idx],
            k ∈ orig ∨ env.chunk_result k = ChunkResult.ok := by
          intro k hk
          rcases List.mem_append.mp hk with hk | hk
          · exact hjob k hk
          · rcases List.mem_singleton.mp hk with rfl
            exact Or.inr hres
        have := ih ({ job with
            chunks_uploaded := job.chunks_uploaded ++ [idx],
            updated_at := now }) online orig hjob'
        constructor
        · intro jb h
          simp only [uploadChunksLoop, hmem, hres, if_false, ite_false,
            List.mem_cons] at h
          rcases h with h | h | h
          · exact absurd h (by simp)
          · cases h; exact hjob'
          · exact this.1 jb h
        · intro k hk
          refine this.2 k ?_
          simpa [uploadChunksLoop, hmem, hres] using hk
      | netFail =>
        constructor
        · intro jb h
          simp only [uploadChunksLoop, hmem, hres, if_false, ite_false,
            List.mem_cons, List.mem_singleton] at h
          rcases h with h | h | h
          · exact absurd h (by simp)
          · cases h; exact hjob
          · simp at h
        · intro k hk
          refine hjob k ?_
          simpa [uploadChunksLoop, hmem, hres] using hk
      | otherFail =>
        constructor
        · intro jb h
          simp only [uploadChunksLoop, hmem, hres, if_false, ite_false,
            List.mem_cons, List.mem_singleton] at h
          rcases h with h | h | h
          · exact absurd h (by simp)
          · cases h; exact hjob
          · simp at h
        · intro k hk
          refine hjob k ?_
          simpa [uploadChunksLoop, hmem, hres] using hk

/-- The chunk loop's trace is well formed (each upload immediately
persisted) whatever well-formed tail it is extended with. -/
theorem loop_persistedOk (env : Env) (now : Nat) :
    ∀ (l : List Nat) (job : SlideSyncJob) (online : Bool)
      (tail : List Event), persistedOk env tail = true →
      persistedOk env
        ((uploadChunksLoop env now l job online).events ++ tail) = true := by
  intro l
  induction l with
  | nil => intro job online tail h; simpa [uploadChunksLoop] using h
  | cons idx rest ih =>
    intro job online tail h
    by_cases hmem : idx ∈ job.chunks_uploaded
    · rw [show uploadChunksLoop env now (idx :: rest) job online
          = uploadChunksLoop env now rest job online by
            simp [uploadChunksLoop, hmem]]
      exact ih job online tail h
    · cases hres : env.chunk_result idx with
      | ok =>
        have hrec := ih ({ job with
            chunks_uploaded := job.chunks_uploaded ++ [idx],
            updated_at := now }) online tail h
        simp only [uploadChunksLoop, hmem, hres, if_false, ite_false,
          List.cons_append]
        simp [persistedOk, hres, hrec]
      | netFail =>
        simp only [uploadChunksLoop, hmem, hres, if_false, ite_false,
          List.cons_append, List.nil_append]
        simp [persistedOk, hres, h]
      | otherFail =>
        simp only [uploadChunksLoop, hmem, hres, if_false, ite_false,
          List.cons_append, List.nil_append]
        simp [persistedOk, hres, h]

theorem persistedOk_tail (env : Env) :
    ∀ (e : Event) (rest : List Event),
      persistedOk env (e :: rest) = true → persistedOk env rest = true := by
  intro e rest h
  cases e with
  | save j => simpa [persistedOk] using h
  | initiateCall => simpa [persistedOk] using h
  | completeCall => simpa [persistedOk] using h
  | uploadChunkCall i =>
    cases rest with
    | nil => simp [persistedOk]
    | cons e2 rest2 =>
      cases e2 with
      | save jb =>
        simp only [persistedOk, Bool.and_eq_true] at h
        exact h.2
      | initiateCall => simp [persistedOk] at h
      | uploadChunkCall j => simp [persistedOk] at h
      | completeCall => simp [persistedOk] at h

/-- In a well-formed trace, whatever follows an acknowledged
`uploadChunkCall i` starts with a save whose record lists `i` done. -/
theorem persistedOk_split (env : Env) :
    ∀ (l1 : List Event) (i : Nat) (rest : List Event),
      persistedOk env (l1 ++ Event.uploadChunkCall i :: rest) = true →
      env.chunk_result i = ChunkResult.ok →
      ∃ jb rest2,
        rest = Event.save jb :: rest2 ∧ i ∈ jb.chunks_uploaded := by
  intro l1
  induction l1 with
  | nil =>
    intro i rest h hok
    cases rest with
    | nil => simp [persistedOk] at h
    | cons e2 rest2 =>
      cases e2 with
      | save jb =>
        refine ⟨jb, rest2, rfl, ?_⟩
        simp [persistedOk, hok] at h
        exact h.1
      | initiateCall => simp [persistedOk] at h
      | uploadChunkCall j => simp [persistedOk] at h
      | completeCall => simp [persistedOk] at h
  | cons e l1' ih =>
    intro i rest h hok
    refine ih i rest (persistedOk_tail env e _ ?_) hok
    simpa using h

/-- Every trace of `afterInitiate` is well formed. -/
theorem afterInitiate_persistedOk (env : Env) (now : Nat) (online : Bool)
    (job : SlideSyncJob) :
    persistedOk env (afterInitiate env now online job).events = true := by
  unfold afterInitiate
  by_cases hok : (uploadChunksLoop env now (List.range job.chunks_total)
      job online).ok
  · rw [if_pos hok]
    split
    · exact loop_persistedOk env now _ job online _ (by simp [persistedOk])
    · exact loop_persistedOk env now _ job online _ (by simp [persistedOk])
  · rw [if_neg hok]
    have := loop_persistedOk env now (List.range job.chunks_total) job online
      [] (by simp [persistedOk])
    simpa using this

/-- Every trace of `_upload_slide` is well formed: an acknowledged chunk
is persisted into `chunks_uploaded` immediately, before anything else
happens. -/
theorem upload_slide_persistedOk (env : Env) (now : Nat) (online : Bool)
    (job : SlideSyncJob) :
    persistedOk env (upload_slide env now online job).events = true := by
  unfold upload_slide
  by_cases hf : pythonFalsy job.s3_upload_id
  · rw [if_pos hf]
    cases env.initiate_result with
    | error e => simp [persistedOk]
    | ok uid =>
      simp only [persistedOk]
      exact afterInitiate_persistedOk env now online _
  · rw [if_neg hf]
    simp only [persistedOk]
    exact afterInitiate_persistedOk env now online _

/-- Every record saved by `afterInitiate` carries the job's `job_id`. -/
theorem afterInitiate_saves_jobid (env : Env) (now : Nat) (online : Bool)
    (job : SlideSyncJob) (jb : SlideSyncJob) :
    Event.save jb ∈ (afterInitiate env now online job).events →
    jb.job_id = job.job_id := by
  intro h
  unfold afterInitiate at h
  by_cases hok : (uploadChunksLoop env now (List.range job.chunks_total)
      job online).ok
  · rw [if_pos hok] at h
    split at h
    · simp only [List.mem_append, List.mem_cons, List.not_mem_nil,
        or_false] at h
      rcases h with h | h | h
      · exact loop_saves_jobid env now _ job online jb h
      · exact absurd h (by simp)
      · simp only [Event.save.injEq] at h
        rw [h]
        exact (loop_inv env now (List.range job.chunks_total) job online).1
    · simp only [List.mem_append, List.mem_cons, List.not_mem_nil,
        or_false] at h
      rcases h with h | h | h
      · exact loop_saves_jobid env now _ job online jb h
      · exact absurd h (by simp)
      · simp only [Event.save.injEq] at h
        rw [h]
        exact (loop_inv env now (List.range job.chunks_total) job online).1
  · rw [if_neg hok] at h
    exact loop_saves_jobid env now _ job online jb h

/-- Every record saved by `_upload_slide` carries the processed job's
`job_id`: the routine never touches any other job's row. -/
theorem upload_slide_saves_jobid (env : Env) (now : Nat) (online : Bool)
    (job : SlideSyncJob) (jb : SlideSyncJob) :
    Event.save jb ∈ (upload_slide env now online job).events →
    jb.job_id = job.job_id := by
  intro h
  unfold upload_slide at h
  by_cases hf : pythonFalsy job.s3_upload_id
  · rw [if_pos hf] at h
    split at h
    · simp only [List.mem_cons, List.not_mem_nil, or_false] at h
      rcases h with h | h | h
      · simp only [Event.save.injEq] at h; rw [h]
      · exact absurd h (by simp)
      · simp only [Event.save.injEq] at h; rw [h]
    · rename_i uid heq
      simp only [List.mem_cons] at h
      rcases h with h | h | h | h
      · simp only [Event.save.injEq] at h; rw [h]
      · exact absurd h (by simp)
      · simp only [Event.save.injEq] at h; rw [h]
      · exact afterInitiate_saves_jobid env now online ({ job with status := SyncStatus.uploading, updated_at := now, s3_upload_id := some uid }) jb h
  · rw [if_neg hf] at h
    simp only [List.mem_cons] at h
    rcases h with h | h
    · simp only [Event.save.injEq] at h; rw [h]
    · exact afterInitiate_saves_jobid env now online ({ job with status := SyncStatus.uploading, updated_at := now }) jb h

/-- Every record saved by `afterInitiate` lists only chunk indices that
were already done at entry or were acknowledged. -/
theorem afterInitiate_saves_acked (env : Env) (now : Nat) (online : Bool)
    (job : SlideSyncJob) (orig : List Nat)
    (hjob : ∀ k ∈ job.chunks_uploaded,
      k ∈ orig ∨ env.chunk_result k = ChunkResult.ok) :
    ∀ jb, Event.save jb ∈ (afterInitiate env now online job).events →
      ∀ k ∈ jb.chunks_uploaded,
        k ∈ orig ∨ env.chunk_result k = ChunkResult.ok := by
  intro jb h k hk
  have hloop := loop_saves_acked env now (List.range job.chunks_total) job
    online orig hjob
  unfold afterInitiate at h
  by_cases hok : (uploadChunksLoop env now (List.range job.chunks_total)
      job online).ok
  · rw [if_pos hok] at h
    split at h
    · simp only [List.mem_append, List.mem_cons, List.not_mem_nil,
        or_false] at h
      rcases h with h | h | h
      · exact hloop.1 jb h k hk
      · exact absurd h (by simp)
      · simp only [Event.save.injEq] at h
        subst h
        exact hloop.2 k hk
    · simp only [List.mem_append, List.mem_cons, List.not_mem_nil,
        or_false] at h
      rcases h with h | h | h
      · exact hloop.1 jb h k hk
      · exact absurd h (by simp)
      · simp only [Event.save.injEq] at h
        subst h
        exact hloop.2 k hk
  · rw [if_neg hok] at h
    exact hloop.1 jb h k hk

/-- Every record saved by `_upload_slide` lists only chunk indices that
were already done when processing started or were acknowledged by the
remote endpoint during this run. -/
theorem upload_slide_saves_acked (env : Env) (now : Nat) (online : Bool)
    (job : SlideSyncJob) :
    ∀ jb, Event.save jb ∈ (upload_slide env now online job).events →
      ∀ k ∈ jb.chunks_uploaded,
        k ∈ job.chunks_uploaded ∨ env.chunk_result k = ChunkResult.ok := by
  intro jb h k hk
  unfold upload_slide at h
  by_cases hf : pythonFalsy job.s3_upload_id
  · rw [if_pos hf] at h
    split at h
    · simp only [List.mem_cons, List.not_mem_nil, or_false] at h
      rcases h with h | h | h
      · simp only [Event.save.injEq] at h; subst h; exact Or.inl hk
      · exact absurd h (by simp)
      · simp only [Event.save.injEq] at h; subst h; exact Or.inl hk
    · rename_i uid heq
      simp only [List.mem_cons] at h
      rcases h with h | h | h | h
      · simp only [Event.save.injEq] at h; subst h; exact Or.inl hk
      · exact absurd h (by simp)
      · simp only [Event.save.injEq] at h; subst h; exact Or.inl hk
      · exact afterInitiate_saves_acked env now online ({ job with status := SyncStatus.uploading, updated_at := now, s3_upload_id := some uid }) job.chunks_uploaded (fun x hx => Or.inl hx) jb h k hk
  · rw [if_neg hf] at h
    simp only [List.mem_cons] at h
    rcases h with h | h
    · simp only [Event.save.injEq] at h; subst h; exact Or.inl hk
    · exact afterInitiate_saves_acked env now online ({ job with status := SyncStatus.uploading, updated_at := now }) job.chunks_uploaded (fun x hx => Or.inl hx) jb h k hk

/-! ### Helper lemmas about `_get_next_job` -/

theorem jobLt_irrefl (a : SlideSyncJob) : ¬ jobLt a a := by
  simp [jobLt]

theorem jobLt_notnot_trans (a b c : SlideSyncJob) :
    ¬ jobLt a b → ¬ jobLt b c → ¬ jobLt a c := by
  intro h1 h2
  simp only [jobLt] at *
  omega

theorem jobLt_lt_notLt (a b c : SlideSyncJob) :
    jobLt a b → ¬ jobLt a c → ¬ jobLt b c := by
  intro h1 h2
  simp only [jobLt] at *
  omega

theorem minAcc_ne_none (acc : Option SlideSyncJob) (j : SlideSyncJob) :
    minAcc acc j ≠ none := by
  cases acc with
  | none => simp [minAcc]
  | some b =>
    simp only [minAcc]
    split <;> simp

theorem foldl_minAcc_none :
    ∀ (l : List SlideSyncJob) (acc : Option SlideSyncJob),
      l.foldl minAcc acc = none → acc = none ∧ l = [] := by
  intro l
  induction l with
  | nil => intro acc h; exact ⟨h, rfl⟩
  | cons j rest ih =>
    intro acc h
    exact absurd (ih (minAcc acc j) h).1 (minAcc_ne_none acc j)

theorem foldl_minAcc_mem :
    ∀ (l : List SlideSyncJob) (acc : Option SlideSyncJob)
      (c : SlideSyncJob),
      l.foldl minAcc acc = some c → acc = some c ∨ c ∈ l := by
  intro l
  induction l with
  | nil => intro acc c h; exact Or.inl h
  | cons j rest ih =>
    intro acc c h
    rcases ih (minAcc acc j) c h with h2 | h2
    · cases acc with
      | none =>
        simp only [minAcc, Option.some.injEq] at h2
        refine Or.inr ?_
        rw [← h2]
        exact List.mem_cons_self _ _
      | some b =>
        simp only [minAcc] at h2
        split at h2
        · simp only [Option.some.injEq] at h2
          refine Or.inr ?_
          rw [← h2]
          exact List.mem_cons_self _ _
        · exact Or.inl h2
    · exact Or.inr (List.mem_cons_of_mem _ h2)

theorem foldl_minAcc_min :
    ∀ (l : List SlideSyncJob) (acc : Option SlideSyncJob)
      (c : SlideSyncJob),
      l.foldl minAcc acc = some c →
      (∀ k ∈ l, ¬ jobLt k c) ∧ (∀ b, acc = some b → ¬ jobLt b c) := by
  intro l
  induction l with
  | nil =>
    intro acc c h
    refine ⟨by simp, fun b hb => ?_⟩
    rw [hb] at h
    simp only [List.foldl_nil, Option.some.injEq] at h
    exact h ▸ jobLt_irrefl c
  | cons j rest ih =>
    intro acc c h
    obtain ⟨h1, h2⟩ := ih (minAcc acc j) c h
    constructor
    · intro k hk
      rcases List.mem_cons.mp hk with rfl | hk2
      · cases acc with
        | none => exact h2 k rfl
        | some b =>
          by_cases hlt : jobLt k b
          · exact h2 k (by simp [minAcc, hlt])
          · exact jobLt_notnot_trans k b c hlt
              (h2 b (by simp [minAcc, hlt]))
      · exact h1 k hk2
    · intro b hb
      subst hb
      by_cases hlt : jobLt j b
      · exact jobLt_lt_notLt j b c hlt (h2 j (by simp [minAcc, hlt]))
      · exact h2 b (by simp [minAcc, hlt])

/-- `_get_next_job` returns `none` exactly when no row is `QUEUED` or
`PAUSED`. -/
theorem get_next_job_none_iff (store : List SlideSyncJob) :
    get_next_job store = none ↔ ∀ k ∈ store, eligible k = false := by
  unfold get_next_job
  constructor
  · intro h k hk
    have hnil := (foldl_minAcc_none _ none h).2
    by_contra hne
    have helig : eligible k = true := by
      cases he : eligible k
      · exact absurd he hne
      · rfl
    have : k ∈ store.filter eligible := List.mem_filter.mpr ⟨hk, helig⟩
    rw [hnil] at this
    simp at this
  · intro h
    have : store.filter eligible = [] := by
      rw [List.filter_eq_nil_iff]
      intro k hk
      simp [h k hk]
    rw [this]
    rfl

/-- A job returned by `_get_next_job` is in the store, is eligible, and
no eligible job precedes it in `(priority, created_at)` order. -/
theorem get_next_job_some (store : List SlideSyncJob) (j : SlideSyncJob)
    (h : get_next_job store = some j) :
    j ∈ store ∧ eligible j = true ∧
      ∀ k ∈ store, eligible k = true → ¬ jobLt k j := by
  unfold get_next_job at h
  rcases foldl_minAcc_mem _ none j h with h2 | h2
  · exact absurd h2 (by simp)
  · have hj := List.mem_filter.mp h2
    refine ⟨hj.1, hj.2, fun k hk he => ?_⟩
    exact (foldl_minAcc_min _ none j h).1 k (List.mem_filter.mpr ⟨hk, he⟩)

/-! ### Helper lemmas about `_save_job` and the worker pass -/

theorem save_job_keeps (store : List SlideSyncJob) (j t : SlideSyncJob)
    (hne : j.job_id ≠ t.job_id) (ht : t ∈ store) : t ∈ save_job store j := by
  have hfe : (t.job_id == j.job_id) = false :=
    beq_eq_false_iff_ne.mpr (fun h' => hne h'.symm)
  unfold save_job
  split
  · refine List.mem_map.mpr ⟨t, ht, ?_⟩
    simp [hfe]
  · exact List.mem_append_left _ ht

theorem save_job_ids (store : List SlideSyncJob) (j k : SlideSyncJob)
    (hk : k ∈ store) :
    ∃ k2, k2 ∈ save_job store j ∧ k2.job_id = k.job_id := by
  unfold save_job
  split
  · by_cases hkj : (k.job_id == j.job_id) = true
    · exact ⟨j, List.mem_map.mpr ⟨k, hk, by simp [hkj]⟩,
        (beq_iff_eq.mp hkj).symm⟩
    · have hfe : (k.job_id == j.job_id) = false :=
        Bool.not_eq_true _ ▸ Bool.eq_false_iff.mpr hkj
      exact ⟨k, List.mem_map.mpr ⟨k, hk, by simp [hfe]⟩, rfl⟩
  · exact ⟨k, List.mem_append_left _ hk, rfl⟩

theorem apply_events_keeps (t : SlideSyncJob) :
    ∀ (evs : List Event) (store : List SlideSyncJob),
      (∀ jb, Event.save jb ∈ evs → jb.job_id ≠ t.job_id) →
      t ∈ store → t ∈ apply_events store evs := by
  intro evs
  induction evs with
  | nil => intro store _ ht; exact ht
  | cons e rest ih =>
    intro store hsaves ht
    cases e with
    | save j =>
      have hne : j.job_id ≠ t.job_id := hsaves j (List.mem_cons_self _ _)
      exact ih (save_job store j)
        (fun jb hjb => hsaves jb (List.mem_cons_of_mem _ hjb))
        (save_job_keeps store j t hne ht)
    | initiateCall =>
      exact ih store (fun jb hjb => hsaves jb (List.mem_cons_of_mem _ hjb)) ht
    | uploadChunkCall i =>
      exact ih store (fun jb hjb => hsaves jb (List.mem_cons_of_mem _ hjb)) ht
    | completeCall =>
      exact ih store (fun jb hjb => hsaves jb (List.mem_cons_of_mem _ hjb)) ht

theorem apply_events_ids :
    ∀ (evs : List Event) (store : List SlideSyncJob) (k : SlideSyncJob),
      k ∈ store →
      ∃ k2, k2 ∈ apply_events store evs ∧ k2.job_id = k.job_id := by
  intro evs
  induction evs with
  | nil => intro store k hk; exact ⟨k, hk, rfl⟩
  | cons e rest ih =>
    intro store k hk
    cases e with
    | save j =>
      obtain ⟨k2, hk2, he2⟩ := save_job_ids store j k hk
      obtain ⟨k3, hk3, he3⟩ := ih (save_job store j) k2 hk2
      exact ⟨k3, hk3, he3.trans he2⟩
    | initiateCall => exact ih store k hk
    | uploadChunkCall i => exact ih store k hk
    | completeCall => exact ih store k hk

/-! ### Behaviour of `_upload_slide` under specific environments -/

/-- With every remaining chunk acknowledged and `complete` succeeding,
`afterInitiate` uploads exactly the missing indices in order and reaches
`COMPLETED`. -/
theorem afterInitiate_ok (env : Env) (now : Nat) (online : Bool)
    (job : SlideSyncJob)
    (hchunks : ∀ i ∈ missingChunks job, env.chunk_result i = ChunkResult.ok)
    (hcomp : env.complete_result = Except.ok ()) :
    (afterInitiate env now online job).job.status = SyncStatus.completed ∧
    (afterInitiate env now online job).job.chunks_uploaded
      = job.chunks_uploaded ++ missingChunks job ∧
    (afterInitiate env now online job).online = online ∧
    (afterInitiate env now online job).job.s3_upload_id = job.s3_upload_id ∧
    uploadedIndices (afterInitiate env now online job).events
      = missingChunks job := by
  have hle := loop_eq_go env now (List.range job.chunks_total) job online
    (List.nodup_range _)
  have hmf : (List.range job.chunks_total).filter
      (fun i => decide (i ∉ job.chunks_uploaded)) = missingChunks job := rfl
  rw [hmf] at hle
  have hgo := go_ok env now (missingChunks job) job online hchunks
  unfold afterInitiate
  rw [hle, if_pos hgo.1, hcomp]
  refine ⟨rfl, hgo.2.2.1, hgo.2.1, hgo.2.2.2.2.1, ?_⟩
  rw [uploadedIndices_append]
  rw [hgo.2.2.2.2.2.2.2]
  simp [uploadedIndices]

/-- If the first genuinely missing chunk that is not acknowledged fails
with a network error (all earlier missing ones succeeding),
`afterInitiate` pauses the job, bumps `retry_count` once and drops the
online flag. -/
theorem afterInitiate_netFail (env : Env) (now : Nat) (online : Bool)
    (job : SlideSyncJob) (m1 : List Nat) (i : Nat) (m2 : List Nat)
    (hm : missingChunks job = m1 ++ i :: m2)
    (hok1 : ∀ x ∈ m1, env.chunk_result x = ChunkResult.ok)
    (hnet : env.chunk_result i = ChunkResult.netFail) :
    (afterInitiate env now online job).job.status = SyncStatus.paused ∧
    (afterInitiate env now online job).online = false ∧
    (afterInitiate env now online job).job.retry_count
      = job.retry_count + 1 := by
  have hle := loop_eq_go env now (List.range job.chunks_total) job online
    (List.nodup_range _)
  have hmf : (List.range job.chunks_total).filter
      (fun i => decide (i ∉ job.chunks_uploaded)) = missingChunks job := rfl
  rw [hmf, hm] at hle
  have hgo := go_netFail env now m1 i m2 job online hok1 hnet
  unfold afterInitiate
  rw [hle, if_neg (by rw [hgo.2.2.2]; simp)]
  exact ⟨hgo.1, hgo.2.1, hgo.2.2.1⟩

/-- If all chunks are acknowledged but `complete` raises,
`afterInitiate` marks the job `FAILED`, bumps `retry_count`, and leaves
the online flag untouched. -/
theorem afterInitiate_completeFail (env : Env) (now : Nat) (online : Bool)
    (job : SlideSyncJob) (e : String)
    (hchunks : ∀ i ∈ missingChunks job, env.chunk_result i = ChunkResult.ok)
    (hcomp : env.complete_result = Except.error e) :
    (afterInitiate env now online job).job.status = SyncStatus.failed ∧
    (afterInitiate env now online job).online = online := by
  have hle := loop_eq_go env now (List.range job.chunks_total) job online
    (List.nodup_range _)
  have hmf : (List.range job.chunks_total).filter
      (fun i => decide (i ∉ job.chunks_uploaded)) = missingChunks job := rfl
  rw [hmf] at hle
  have hgo := go_ok env now (missingChunks job) job online hchunks
  unfold afterInitiate
  rw [hle, if_pos hgo.1, hcomp]
  exact ⟨rfl, hgo.2.1⟩

/-- `afterInitiate` never issues an initiate call and never changes the
transfer handle. -/
theorem afterInitiate_no_initiate (env : Env) (now : Nat) (online : Bool)
    (job : SlideSyncJob) :
    Event.initiateCall ∉ (afterInitiate env now online job).events ∧
    (afterInitiate env now online job).job.s3_upload_id
      = job.s3_upload_id := by
  have hinv := loop_inv env now (List.range job.chunks_total) job online
  unfold afterInitiate
  by_cases hok : (uploadChunksLoop env now (List.range job.chunks_total)
      job online).ok
  · rw [if_pos hok]
    split
    · refine ⟨?_, hinv.2.1⟩
      intro hmem
      rcases List.mem_append.mp hmem with hmem | hmem
      · exact hinv.2.2 hmem
      · simp at hmem
    · refine ⟨?_, hinv.2.1⟩
      intro hmem
      rcases List.mem_append.mp hmem with hmem | hmem
      · exact hinv.2.2 hmem
      · simp at hmem
  · rw [if_neg hok]
    exact ⟨hinv.2.2, hinv.2.1⟩

/-- With initiate available (when needed), all remaining chunks
acknowledged and `complete` succeeding, `_upload_slide` uploads exactly
the missing indices and reaches `COMPLETED`. -/
theorem upload_slide_ok (env : Env) (now : Nat) (online : Bool)
    (job : SlideSyncJob)
    (hini : pythonFalsy job.s3_upload_id = true →
      ∃ u, env.initiate_result = Except.ok u)
    (hchunks : ∀ i ∈ missingChunks job, env.chunk_result i = ChunkResult.ok)
    (hcomp : env.complete_result = Except.ok ()) :
    uploadedIndices (upload_slide env now online job).events
      = missingChunks job ∧
    (upload_slide env now online job).job.status = SyncStatus.completed ∧
    (upload_slide env now online job).job.chunks_uploaded
      = job.chunks_uploaded ++ missingChunks job := by
  unfold upload_slide
  by_cases hf : pythonFalsy job.s3_upload_id
  · obtain ⟨u, hu⟩ := hini hf
    rw [if_pos hf, hu]
    have hres := afterInitiate_ok env now online ({ job with status := SyncStatus.uploading, updated_at := now, s3_upload_id := some u }) hchunks hcomp
    refine ⟨?_, hres.1, hres.2.1⟩
    simp only [uploadedIndices]
    exact hres.2.2.2.2
  · rw [if_neg hf]
    have hres := afterInitiate_ok env now online ({ job with status := SyncStatus.uploading, updated_at := now }) hchunks hcomp
    refine ⟨?_, hres.1, hres.2.1⟩
    simp only [uploadedIndices]
    exact hres.2.2.2.2

/-- An exception raised by the initiate call makes `_upload_slide`
persist `FAILED` at once, leaving the online flag untouched. -/
theorem upload_slide_initFail (env : Env) (now : Nat) (online : Bool)
    (job : SlideSyncJob) (e : String)
    (hf : pythonFalsy job.s3_upload_id = true)
    (he : env.initiate_result = Except.error e) :
    (upload_slide env now online job).job.status = SyncStatus.failed ∧
    (upload_slide env now online job).online = online ∧
    (upload_slide env now online job).job.retry_count
      = job.retry_count + 1 ∧
    (upload_slide env now online job).job.error_message = some e := by
  unfold upload_slide
  rw [if_pos hf, he]
  exact ⟨rfl, rfl, rfl, rfl⟩

/-- A network failure on the first remaining chunk makes `_upload_slide`
persist `PAUSED` and drop the online flag. -/
theorem upload_slide_netFail (env : Env) (now : Nat) (online : Bool)
    (job : SlideSyncJob) (m1 : List Nat) (i : Nat) (m2 : List Nat)
    (hini : pythonFalsy job.s3_upload_id = true →
      ∃ u, env.initiate_result = Except.ok u)
    (hm : missingChunks job = m1 ++ i :: m2)
    (hok1 : ∀ x ∈ m1, env.chunk_result x = ChunkResult.ok)
    (hnet : env.chunk_result i = ChunkResult.netFail) :
    (upload_slide env now online job).job.status = SyncStatus.paused ∧
    (upload_slide env now online job).online = false ∧
    (upload_slide env now online job).job.retry_count
      = job.retry_count + 1 := by
  unfold upload_slide
  by_cases hf : pythonFalsy job.s3_upload_id
  · obtain ⟨u, hu⟩ := hini hf
    rw [if_pos hf, hu]
    exact afterInitiate_netFail env now online ({ job with status := SyncStatus.uploading, updated_at := now, s3_upload_id := some u }) m1 i m2 hm hok1 hnet
  · rw [if_neg hf]
    exact afterInitiate_netFail env now online ({ job with status := SyncStatus.uploading, updated_at := now }) m1 i m2 hm hok1 hnet

/-- An exception raised by the complete call (all chunks acknowledged)
makes `_upload_slide` persist `FAILED`, leaving the online flag
untouched. -/
theorem upload_slide_completeFail (env : Env) (now : Nat) (online : Bool)
    (job : SlideSyncJob) (e : String)
    (hini : pythonFalsy job.s3_upload_id = true →
      ∃ u, env.initiate_result = Except.ok u)
    (hchunks : ∀ i ∈ missingChunks job, env.chunk_result i = ChunkResult.ok)
    (hcomp : env.complete_result = Except.error e) :
    (upload_slide env now online job).job.status = SyncStatus.failed ∧
    (upload_slide env now online job).online = online := by
  unfold upload_slide
  by_cases hf : pythonFalsy job.s3_upload_id
  · obtain ⟨u, hu⟩ := hini hf
    rw [if_pos hf, hu]
    exact afterInitiate_completeFail env now online ({ job with status := SyncStatus.uploading, updated_at := now, s3_upload_id := some u }) e hchunks hcomp
  · rw [if_neg hf]
    exact afterInitiate_completeFail env now online ({ job with status := SyncStatus.uploading, updated_at := now }) e hchunks hcomp

/-- `afterInitiate` reaches the complete call whenever all remaining
chunks are acknowledged. -/
theorem afterInitiate_completeCall (env : Env) (now : Nat) (online : Bool)
    (job : SlideSyncJob)
    (hchunks : ∀ i ∈ missingChunks job,
      env.chunk_result i = ChunkResult.ok) :
    Event.completeCall ∈ (afterInitiate env now online job).events := by
  have hle := loop_eq_go env now (List.range job.chunks_total) job online
    (List.nodup_range _)
  have hmf : (List.range job.chunks_total).filter
      (fun i => decide (i ∉ job.chunks_uploaded)) = missingChunks job := rfl
  rw [hmf] at hle
  have hgo := go_ok env now (missingChunks job) job online hchunks
  unfold afterInitiate
  rw [hle, if_pos hgo.1]
  split <;> simp

/-! ### The claims -/

/-- C1: for a job whose persisted `chunks_done` is an arbitrary
(possibly non-contiguous) subset of `{0,…,chunk_count-1}`, processing it
with a working network uploads exactly the complement subset: every
index not in `chunks_done` is sent (each exactly once), no index already
in `chunks_done` is ever re-sent, and the job completes. -/
theorem c1_resume_uploads_exact_complement (env : Env) (now : Nat)
    (online : Bool) (job : SlideSyncJob) (u : String)
    (_hsub : ∀ i ∈ job.chunks_uploaded, i < job.chunks_total)
    (hini : env.initiate_result = Except.ok u)
    (hchunks : ∀ i, env.chunk_result i = ChunkResult.ok)
    (hcomp : env.complete_result = Except.ok ()) :
    uploadedIndices (upload_slide env now online job).events
      = (List.range job.chunks_total).filter
          (fun i => decide (i ∉ job.chunks_uploaded)) ∧
    (∀ i ∈ job.chunks_uploaded,
      i ∉ uploadedIndices (upload_slide env now online job).events) ∧
    (∀ i, i < job.chunks_total → i ∉ job.chunks_uploaded →
      i ∈ uploadedIndices (upload_slide env now online job).events) ∧
    (uploadedIndices (upload_slide env now online job).events).Nodup ∧
    (upload_slide env now online job).job.status
      = SyncStatus.completed := by
  have h := upload_slide_ok env now online job (fun _ => ⟨u, hini⟩)
    (fun i _ => hchunks i) hcomp
  have hm : uploadedIndices (upload_slide env now online job).events
      = missingChunks job := h.1
  refine ⟨hm, ?_, ?_, ?_, h.2.1⟩
  · intro i hi hmem
    rw [hm] at hmem
    have h2 := List.mem_filter.mp hmem
    simp only [decide_eq_true_eq] at h2
    exact h2.2 hi
  · intro i hlt hni
    rw [hm]
    exact List.mem_filter.mpr ⟨List.mem_range.mpr hlt, by simpa using hni⟩
  · rw [hm]
    exact (List.nodup_range _).filter _

/-- C1 witness: with done set `{0, 2}` of 3 chunks, exactly chunk 1 is
sent and the job completes. -/
theorem c1_resume_uploads_exact_complement_witness :
    uploadedIndices (upload_slide envAllOk 5 true jobW1).events = [1] ∧
    1 ∈ uploadedIndices (upload_slide envAllOk 5 true jobW1).events ∧
    0 ∉ uploadedIndices (upload_slide envAllOk 5 true jobW1).events ∧
    (upload_slide envAllOk 5 true jobW1).job.status
      = SyncStatus.completed := by
  have h := c1_resume_uploads_exact_complement envAllOk 5 true jobW1 "u-1"
    (by decide) rfl (fun i => rfl) rfl
  refine ⟨?_, h.2.2.1 1 (by decide) (by decide), h.2.1 0 (by decide),
    h.2.2.2.2⟩
  rw [h.1]
  decide

/-- C2: the claim that a job reaches `FAILED` only after its retry
budget is exhausted fails on the code — a single initiate failure moves
a job with untouched retry budget (`retry_count = 0`; `RETRY_INTERVALS`
is never consulted anywhere) straight to `FAILED`. -/
theorem c2_first_initiate_failure_fails_job :
    jobC2.retry_count = 0 ∧
    jobC2.status = SyncStatus.queued ∧
    (upload_slide envInitDown 9 true jobC2).job.status
      = SyncStatus.failed ∧
    (upload_slide envInitDown 9 true jobC2).job.retry_count = 1 := by
  decide

/-- C3 counterexample: a network timeout raised during the initiate
phase leaves the job `FAILED` — not `PAUSED` — and does not touch the
online flag, contradicting the claim for the initiate phase. -/
theorem c3_network_failure_in_initiate_not_paused :
    (upload_slide envInitTimeout 4 true jobC3).job.status
      = SyncStatus.failed ∧
    (upload_slide envInitTimeout 4 true jobC3).job.status
      ≠ SyncStatus.paused ∧
    (upload_slide envInitTimeout 4 true jobC3).online = true := by
  decide

/-- C3 (amended): a network failure during the uploadChunk phase
persists `PAUSED`, bumps `retry_count` and sets the online flag false;
a network failure raised during initiate or complete instead persists
`FAILED` and leaves the online flag unchanged. -/
theorem c3_transient_failure_phase_dependent (env : Env) (now : Nat)
    (online : Bool) (job : SlideSyncJob) :
    (∀ (m1 : List Nat) (i : Nat) (m2 : List Nat),
      (pythonFalsy job.s3_upload_id = true →
        ∃ u, env.initiate_result = Except.ok u) →
      missingChunks job = m1 ++ i :: m2 →
      (∀ x ∈ m1, env.chunk_result x = ChunkResult.ok) →
      env.chunk_result i = ChunkResult.netFail →
      (upload_slide env now online job).job.status = SyncStatus.paused ∧
      (upload_slide env now online job).online = false ∧
      (upload_slide env now online job).job.retry_count
        = job.retry_count + 1) ∧
    (∀ e, pythonFalsy job.s3_upload_id = true →
      env.initiate_result = Except.error e →
      (upload_slide env now online job).job.status = SyncStatus.failed ∧
      (upload_slide env now online job).online = online) ∧
    (∀ e,
      (pythonFalsy job.s3_upload_id = true →
        ∃ u, env.initiate_result = Except.ok u) →
      (∀ i ∈ missingChunks job, env.chunk_result i = ChunkResult.ok) →
      env.complete_result = Except.error e →
      (upload_slide env now online job).job.status = SyncStatus.failed ∧
      (upload_slide env now online job).online = online) := by
  refine ⟨fun m1 i m2 hini hm hok1 hnet =>
      upload_slide_netFail env now online job m1 i m2 hini hm hok1 hnet,
    fun e hf he => ?_,
    fun e hini hchunks hcomp =>
      upload_slide_completeFail env now online job e hini hchunks hcomp⟩
  have h := upload_slide_initFail env now online job e hf he
  exact ⟨h.1, h.2.1⟩

/-- C3 witness (amended form): a network drop on chunk 0 pauses the
fresh 2-chunk job, bumps its retry count and marks the manager
offline. -/
theorem c3_transient_failure_phase_dependent_witness :
    (upload_slide envNetDrop 3 true jobC3b).job.status
      = SyncStatus.paused ∧
    (upload_slide envNetDrop 3 true jobC3b).online = false ∧
    (upload_slide envNetDrop 3 true jobC3b).job.retry_count = 1 := by
  have h := (c3_transient_failure_phase_dependent envNetDrop 3 true
    jobC3b).1 [] 0 [1] (fun _ => ⟨"u-2", rfl⟩) (by decide) (by decide) rfl
  exact ⟨h.1, h.2.1, h.2.2⟩

/-- C4: chunk planning is a pure deterministic function of
`(fileSize, bandwidthMbps)`: below 2 Mbps 5 MB chunks, from 2 up to
(excluding) 10 Mbps 25 MB chunks, above 10 Mbps 100 MB chunks — the
code picks 100 MB already at exactly 10 Mbps, matching its own comment's
`2-10 / >10` buckets read half-open — and `chunkCount` is the ceiling of
`fileSize / chunkSize`, i.e. for `fileSize > 0`,
`chunkSize * (chunkCount-1) < fileSize ≤ chunkSize * chunkCount`. -/
theorem c4_chunk_planning (bw : ℚ) (fp : String) (fs : Nat) (pr : Int)
    (now : Nat) (jid sid : String) (md : List (String × String))
    (hfs : 0 < fs) :
    (bw < 2 → (queue_slide bw fp fs pr now jid sid md).chunk_size
      = 5 * 1024 * 1024) ∧
    (2 ≤ bw → bw < 10 →
      (queue_slide bw fp fs pr now jid sid md).chunk_size
        = 25 * 1024 * 1024) ∧
    (10 < bw → (queue_slide bw fp fs pr now jid sid md).chunk_size
      = 100 * 1024 * 1024) ∧
    (queue_slide bw fp fs pr now jid sid md).chunk_size *
        ((queue_slide bw fp fs pr now jid sid md).chunks_total - 1)
      < fs ∧
    fs ≤ (queue_slide bw fp fs pr now jid sid md).chunk_size *
        (queue_slide bw fp fs pr now jid sid md).chunks_total := by
  have hcs : (queue_slide bw fp fs pr now jid sid md).chunk_size
      = adaptive_chunk_size bw := rfl
  have hct : (queue_slide bw fp fs pr now jid sid md).chunks_total
      = (fs + adaptive_chunk_size bw - 1) / adaptive_chunk_size bw := rfl
  rw [hcs, hct]
  unfold adaptive_chunk_size CHUNK_SIZE_MIN CHUNK_SIZE_MAX
  split_ifs with h1 h2
  · refine ⟨fun _ => rfl, fun ha _ => absurd h1 (by linarith),
      fun hb => absurd h1 (by linarith), ?_, ?_⟩ <;> omega
  · refine ⟨fun ha => absurd ha h1, fun _ _ => rfl,
      fun hb => absurd h2 (by linarith), ?_, ?_⟩ <;> omega
  · refine ⟨fun ha => absurd ha h1, fun _ hb => absurd hb h2,
      fun _ => rfl, ?_, ?_⟩ <;> omega

/-- C4 witness: the spec scenario — a 12 MB file at a 1 Mbps estimate
plans 5 MB chunks and `chunk_count = 3`, within the ceiling bounds. -/
theorem c4_chunk_planning_witness :
    (queue_slide 1 "w.svs" 12582912 5 0 "w" "w" []).chunk_size
      = 5 * 1024 * 1024 ∧
    (queue_slide 1 "w.svs" 12582912 5 0 "w" "w" []).chunks_total = 3 ∧
    (queue_slide 1 "w.svs" 12582912 5 0 "w" "w" []).chunk_size *
        ((queue_slide 1 "w.svs" 12582912 5 0 "w" "w" []).chunks_total - 1)
      < 12582912 := by
  have h := c4_chunk_planning 1 "w.svs" 12582912 5 0 "w" "w" []
    (by norm_num)
  exact ⟨h.1 (by norm_num), by decide, h.2.2.2.1⟩

/-- C5: while uploading, every acknowledged chunk's updated
`chunks_done` is persisted (a `_save_job` call whose record lists the
index) before any upload of the next chunk is attempted, and no
persisted record ever lists an index that was neither already done nor
acknowledged by the remote endpoint. -/
theorem c5_persist_before_next_chunk (env : Env) (now : Nat)
    (online : Bool) (job : SlideSyncJob) :
    (∀ (l1 : List Event) (i : Nat) (l2 : List Event) (j2 : Nat)
      (l3 : List Event),
      (upload_slide env now online job).events
        = l1 ++ (Event.uploadChunkCall i
            :: (l2 ++ (Event.uploadChunkCall j2 :: l3))) →
      env.chunk_result i = ChunkResult.ok →
      ∃ jb, Event.save jb ∈ l2 ∧ i ∈ jb.chunks_uploaded) ∧
    (∀ jb, Event.save jb ∈ (upload_slide env now online job).events →
      ∀ k ∈ jb.chunks_uploaded,
        k ∈ job.chunks_uploaded ∨
          env.chunk_result k = ChunkResult.ok) := by
  refine ⟨?_, upload_slide_saves_acked env now online job⟩
  intro l1 i l2 j2 l3 htr hok
  have hp := upload_slide_persistedOk env now online job
  rw [htr] at hp
  obtain ⟨jb, rest2, hrest, hmem⟩ :=
    persistedOk_split env l1 i (l2 ++ (Event.uploadChunkCall j2 :: l3))
      hp hok
  cases l2 with
  | nil => simp at hrest
  | cons e l2' =>
    simp only [List.cons_append, List.cons.injEq] at hrest
    refine ⟨jb, ?_, hmem⟩
    rw [hrest.1]
    exact List.mem_cons_self _ _

/-- C5 witness: processing the fresh 2-chunk job `jobW5`, the save
recording chunk 0 done sits strictly between the uploads of chunks 0
and 1. -/
theorem c5_persist_before_next_chunk_witness :
    ∃ jb, Event.save jb ∈ [Event.save jW5c] ∧ 0 ∈ jb.chunks_uploaded :=
  (c5_persist_before_next_chunk envAllOk 1 true jobW5).1
    [Event.save jW5a, Event.initiateCall, Event.save jW5b] 0
    [Event.save jW5c] 1
    [Event.save jW5d, Event.completeCall, Event.save jW5e]
    (by decide) rfl

/-- C6: initiate is idempotent per job — if the job already carries a
remote transfer handle, processing performs no initiate call and leaves
the handle unchanged, so the job never observes a second live handle. -/
theorem c6_initiate_idempotent (env : Env) (now : Nat) (online : Bool)
    (job : SlideSyncJob) (s : String) (hs : job.s3_upload_id = some s)
    (hne : s ≠ "") :
    Event.initiateCall ∉ (upload_slide env now online job).events ∧
    (upload_slide env now online job).job.s3_upload_id = some s := by
  have hf : pythonFalsy job.s3_upload_id = false := by
    rw [hs]
    show s.isEmpty = false
    cases hse : s.isEmpty
    · rfl
    · exact absurd ((String.isEmpty_iff s).mp hse) hne
  unfold upload_slide
  rw [if_neg (by simp [hf])]
  have hai := afterInitiate_no_initiate env now online
    ({ job with status := SyncStatus.uploading, updated_at := now })
  constructor
  · intro hmem
    rcases List.mem_cons.mp hmem with h | h
    · simp at h
    · exact hai.1 h
  · exact hai.2.trans hs

/-- C6 witness: the job already holding handle `uid-w6` triggers no
initiate call and keeps its handle. -/
theorem c6_initiate_idempotent_witness :
    Event.initiateCall ∉ (upload_slide envAllOk 2 true jobW6).events ∧
    (upload_slide envAllOk 2 true jobW6).job.s3_upload_id
      = some "uid-w6" :=
  c6_initiate_idempotent envAllOk 2 true jobW6 "uid-w6" rfl (by decide)

/-- C7: `_get_next_job` returns a `QUEUED`/`PAUSED` job with minimal
`priority`, ties broken by oldest `created_at`, and `none` exactly when
no eligible job exists; in particular jobs with priorities [5,1,3]
(enqueued in that order) are selected in the order 1, 3, 5. -/
theorem c7_next_job_priority_order :
    (∀ store : List SlideSyncJob,
      (get_next_job store = none ↔ ∀ k ∈ store, eligible k = false)) ∧
    (∀ (store : List SlideSyncJob) (j : SlideSyncJob),
      get_next_job store = some j →
      j ∈ store ∧ eligible j = true ∧
        ∀ k ∈ store, eligible k = true →
          j.priority ≤ k.priority ∧
          (j.priority = k.priority → j.created_at ≤ k.created_at)) ∧
    get_next_job [jobP5, jobP1, jobP3] = some jobP1 ∧
    get_next_job [jobP5, jobP1done, jobP3] = some jobP3 ∧
    get_next_job [jobP5, jobP1done, jobP3done] = some jobP5 := by
  refine ⟨get_next_job_none_iff, ?_, by decide, by decide, by decide⟩
  intro store j h
  obtain ⟨h1, h2, h3⟩ := get_next_job_some store j h
  refine ⟨h1, h2, fun k hk he => ?_⟩
  have h4 := h3 k hk he
  simp only [jobLt] at h4
  omega

/-- C7 witness: on the priority [5,1,3] store the selected job is the
priority-1 job, eligible and minimal. -/
theorem c7_next_job_priority_order_witness :
    jobP1 ∈ [jobP5, jobP1, jobP3] ∧ eligible jobP1 = true ∧
    ∀ k ∈ [jobP5, jobP1, jobP3], eligible k = true →
      jobP1.priority ≤ k.priority ∧
      (jobP1.priority = k.priority → jobP1.created_at ≤ k.created_at) :=
  c7_next_job_priority_order.2.1 [jobP5, jobP1, jobP3] jobP1 (by decide)

/-- C8: the claim that consecutive transient failures impose the
5,10,30,60,300,600-second backoff schedule and that a `PAUSED` job is
not re-selected before its earliest-retry timestamp fails on the code —
`_get_next_job` consults neither `retry_count` nor any timestamp
(`RETRY_INTERVALS` is dead configuration), so a `PAUSED` job with five
failures behind it is re-selected with zero wait. -/
theorem c8_paused_reselected_without_backoff :
    jobStuckPaused.status = SyncStatus.paused ∧
    jobStuckPaused.retry_count = 5 ∧
    eligible jobStuckPaused = true ∧
    get_next_job [jobStuckPaused] = some jobStuckPaused := by
  decide

/-- C9: once a job is `COMPLETED` or `FAILED`, a scheduler pass leaves
its record untouched (it is never selected and never rewritten), and no
record is ever deleted from the store. -/
theorem c9_terminal_jobs_untouched (env : Env) (now : Nat)
    (online : Bool) (store : List SlideSyncJob) (t : SlideSyncJob)
    (hids : (store.map (fun k => k.job_id)).Nodup)
    (ht : t ∈ store)
    (hterm : t.status = SyncStatus.completed ∨
      t.status = SyncStatus.failed) :
    t ∈ (sync_worker_pass env now online store).1 ∧
    ∀ k ∈ store,
      ∃ k2, k2 ∈ (sync_worker_pass env now online store).1 ∧
        k2.job_id = k.job_id := by
  cases hn : get_next_job store with
  | none =>
    have hpass : sync_worker_pass env now online store = (store, online) := by
      unfold sync_worker_pass
      rw [hn]
    rw [hpass]
    exact ⟨ht, fun k hk => ⟨k, hk, rfl⟩⟩
  | some sel =>
    cases online with
    | false =>
      have hpass : sync_worker_pass env now false store
          = (store, false) := by
        unfold sync_worker_pass
        rw [hn]
        rfl
      rw [hpass]
      exact ⟨ht, fun k hk => ⟨k, hk, rfl⟩⟩
    | true =>
      have hpass : sync_worker_pass env now true store
          = (apply_events store (upload_slide env now true sel).events,
              (upload_slide env now true sel).online) := by
        unfold sync_worker_pass
        rw [hn]
        rfl
      rw [hpass]
      obtain ⟨hselmem, hselel, _⟩ := get_next_job_some store sel hn
      have hne_jobs : sel ≠ t := by
        intro he
        subst he
        rcases hterm with h | h <;> simp [eligible, h] at hselel
      have hne : sel.job_id ≠ t.job_id := by
        intro he
        exact hne_jobs (List.inj_on_of_nodup_map hids hselmem ht he)
      constructor
      · exact apply_events_keeps t _ store
          (fun jb hjb =>
            (upload_slide_saves_jobid env now true sel jb hjb).symm ▸ hne)
          ht
      · intro k hk
        exact apply_events_ids _ store k hk

/-- C9 witness: a completed job sharing the store with a queued job
survives a full scheduler pass verbatim, and both job ids remain. -/
theorem c9_terminal_jobs_untouched_witness :
    jobTdone ∈ (sync_worker_pass envAllOk 7 true [jobTdone, jobQ1]).1 ∧
    ∀ k ∈ [jobTdone, jobQ1],
      ∃ k2, k2 ∈ (sync_worker_pass envAllOk 7 true [jobTdone, jobQ1]).1 ∧
        k2.job_id = k.job_id :=
  c9_terminal_jobs_untouched envAllOk 7 true [jobTdone, jobQ1] jobTdone
    (by decide) (by decide) (Or.inl rfl)

/-- C10: enqueuing an existing 0-byte file yields `chunk_count = 0`, and
processing it online performs no chunk upload at all — initiate and
complete run, the job reaches `COMPLETED` with `chunks_done` empty, and
`|chunks_done| = chunk_count` holds. -/
theorem c10_zero_byte_file (bw : ℚ) (fp : String) (pr : Int) (now : Nat)
    (jid sid : String) (md : List (String × String)) (env : Env)
    (now2 : Nat) (online : Bool) (u : String)
    (hini : env.initiate_result = Except.ok u)
    (hcomp : env.complete_result = Except.ok ()) :
    (queue_slide bw fp 0 pr now jid sid md).chunks_total = 0 ∧
    uploadedIndices (upload_slide env now2 online
      (queue_slide bw fp 0 pr now jid sid md)).events = [] ∧
    Event.initiateCall ∈ (upload_slide env now2 online
      (queue_slide bw fp 0 pr now jid sid md)).events ∧
    Event.completeCall ∈ (upload_slide env now2 online
      (queue_slide bw fp 0 pr now jid sid md)).events ∧
    (upload_slide env now2 online
      (queue_slide bw fp 0 pr now jid sid md)).job.status
      = SyncStatus.completed ∧
    (upload_slide env now2 online
      (queue_slide bw fp 0 pr now jid sid md)).job.chunks_uploaded
      = [] ∧
    (upload_slide env now2 online
      (queue_slide bw fp 0 pr now jid sid
        md)).job.chunks_uploaded.length
      = (queue_slide bw fp 0 pr now jid sid md).chunks_total := by
  have hpos : 0 < adaptive_chunk_size bw := by
    unfold adaptive_chunk_size CHUNK_SIZE_MIN CHUNK_SIZE_MAX
    split_ifs <;> norm_num
  have hct : (queue_slide bw fp 0 pr now jid sid md).chunks_total = 0 := by
    show (0 + adaptive_chunk_size bw - 1) / adaptive_chunk_size bw = 0
    rw [Nat.div_eq_of_lt (by omega)]
  have hmiss : missingChunks (queue_slide bw fp 0 pr now jid sid md)
      = [] := by
    unfold missingChunks
    rw [hct]
    rfl
  have hok := upload_slide_ok env now2 online
    (queue_slide bw fp 0 pr now jid sid md) (fun _ => ⟨u, hini⟩)
    (by rw [hmiss]; intro i hi; simp at hi) hcomp
  have hfq : pythonFalsy
      (queue_slide bw fp 0 pr now jid sid md).s3_upload_id = true := rfl
  refine ⟨hct, ?_, ?_, ?_, hok.2.1, ?_, ?_⟩
  · rw [hok.1, hmiss]
  · unfold upload_slide
    rw [if_pos hfq, hini]
    simp
  · unfold upload_slide
    rw [if_pos hfq, hini]
    have hcc := afterInitiate_completeCall env now2 online
      ({ queue_slide bw fp 0 pr now jid sid md with status := SyncStatus.uploading, updated_at := now2, s3_upload_id := some u })
      (by rw [show missingChunks ({ queue_slide bw fp 0 pr now jid sid md with status := SyncStatus.uploading, updated_at := now2, s3_upload_id := some u }) = missingChunks (queue_slide bw fp 0 pr now jid sid md) from rfl, hmiss]; intro i hi; simp at hi)
    simp only [List.mem_cons]
    exact Or.inr (Or.inr (Or.inr hcc))
  · rw [hok.2.2, hmiss, List.append_nil]
    rfl
  · rw [hok.2.2, hmiss, List.append_nil, hct]
    rfl

/-- C10 witness: a concrete 0-byte enqueue at a 5 Mbps estimate has
`chunk_count = 0`, uploads nothing and completes. -/
theorem c10_zero_byte_file_witness :
    (queue_slide 5 "z.svs" 0 5 0 "z" "z" []).chunks_total = 0 ∧
    uploadedIndices (upload_slide envAllOk 1 true
      (queue_slide 5 "z.svs" 0 5 0 "z" "z" [])).events = [] ∧
    (upload_slide envAllOk 1 true
      (queue_slide 5 "z.svs" 0 5 0 "z" "z" [])).job.status
      = SyncStatus.completed := by
  have h := c10_zero_byte_file 5 "z.svs" 5 0 "z" "z" [] envAllOk 1 true
    "u-1" rfl rfl
  exact ⟨h.1, h.2.1, h.2.2.2.2.1⟩

end OfflineSync
